import Mathlib

/-
Shallow embedding of the Anabit RangeRite ADC two-point-calibration Arduino
sketch (`RangeRite_ADC_TwoPointCal_Example.ino`).

Modelling conventions:
- IEEE `float` arithmetic is idealised as exact rational arithmetic over `ℚ`
  (the spec states its properties "within floating-point tolerance"; exact
  rational equality implies them).
- Machine integers are `Nat`, reduced modulo `2 ^ 32` exactly where the C
  `uint32_t` arithmetic can wrap (the averaging accumulator, the cast of the
  float average back to `uint32_t`).
- The compile-time device selection `ADSX_BITS ∈ {16, 18}` becomes a `bits`
  parameter; the preprocessor conditionals on it become `if bits = 18`.
- The compile-time flag `ADSX_ENABLE_TWO_POINT_CAL` becomes the Boolean
  parameter `calCompiled`; the `#if` blocks become conditionals on it.
- The SPI exchange is opaque: the i-th call to `adsxReadCodeRaw32` returns
  the 32-bit word `raw i % 2 ^ 32` for an arbitrary environment `raw`.
- The process-wide mutable globals (`g_range_code`, `g_useInternalRef`,
  `g_vref_volts`, `g_num_averages`, `g_cal_enabled`, `g_cal_slope`,
  `g_cal_offset`) are gathered into the explicit state `AdsxState`, passed to
  and returned from the operations that read or write them.
-/

namespace RangeRite

/-- Code alignment shift in the 32-bit output word: `ADSX_CODE_SHIFT`
(14 for the 18-bit build, 16 for the 16-bit build). -/
def ADSX_CODE_SHIFT (bits : Nat) : Nat := if bits = 18 then 14 else 16

/-- Resolution-dependent N-bit code mask: `ADSX_CODE_MASK` (0x3FFFF for 18-bit, 0xFFFF for 16-bit). -/
def ADSX_CODE_MASK (bits : Nat) : Nat := if bits = 18 then 0x3FFFF else 0xFFFF

/-- Range selector code `ADSX_RANGE_BIPOLAR_3X` (±3.000 × VREF). -/
def ADSX_RANGE_BIPOLAR_3X : Nat := 0x0

/-- Range selector code `ADSX_RANGE_BIPOLAR_2P5X` (±2.500 × VREF). -/
def ADSX_RANGE_BIPOLAR_2P5X : Nat := 0x1

/-- Range selector code `ADSX_RANGE_BIPOLAR_1P5X` (±1.500 × VREF). -/
def ADSX_RANGE_BIPOLAR_1P5X : Nat := 0x2

/-- Range selector code `ADSX_RANGE_BIPOLAR_1P25X` (±1.250 × VREF). -/
def ADSX_RANGE_BIPOLAR_1P25X : Nat := 0x3

/-- Range selector code `ADSX_RANGE_BIPOLAR_0P625X` (±0.625 × VREF). -/
def ADSX_RANGE_BIPOLAR_0P625X : Nat := 0x4

/-- Range selector code `ADSX_RANGE_UNIPOLAR_3X` (3.000 × VREF). -/
def ADSX_RANGE_UNIPOLAR_3X : Nat := 0x8

/-- Range selector code `ADSX_RANGE_UNIPOLAR_2P5X` (2.500 × VREF). -/
def ADSX_RANGE_UNIPOLAR_2P5X : Nat := 0x9

/-- Range selector code `ADSX_RANGE_UNIPOLAR_1P5X` (1.500 × VREF). -/
def ADSX_RANGE_UNIPOLAR_1P5X : Nat := 0xA

/-- Range selector code `ADSX_RANGE_UNIPOLAR_1P25X` (1.250 × VREF). -/
def ADSX_RANGE_UNIPOLAR_1P25X : Nat := 0xB

/-- Range code the calibration data was collected under:
`ADSX_CAL_RANGE_CODE = ADSX_RANGE_BIPOLAR_3X`. -/
def ADSX_CAL_RANGE_CODE : Nat := ADSX_RANGE_BIPOLAR_3X

/-- User calibration point 1, actual voltage: `ADSX_CAL_P1_ACTUAL = -10.0002f`. -/
def ADSX_CAL_P1_ACTUAL : ℚ := -100002 / 10000

/-- User calibration point 1, measured voltage: `ADSX_CAL_P1_MEASURED = -10.0017f`. -/
def ADSX_CAL_P1_MEASURED : ℚ := -100017 / 10000

/-- User calibration point 2, actual voltage: `ADSX_CAL_P2_ACTUAL = 10.0027f`. -/
def ADSX_CAL_P2_ACTUAL : ℚ := 100027 / 10000

/-- User calibration point 2, measured voltage: `ADSX_CAL_P2_MEASURED = 10.0045f`. -/
def ADSX_CAL_P2_MEASURED : ℚ := 100045 / 10000

/-- Range multiplier and polarity for a 4-bit range selector
(`adsxRangeMultiplier`).  The C function returns the multiplier as `float`
and writes the polarity through the `bool &isBipolar` reference, so the
embedding returns the pair `(multiplier, isBipolar)`.  The `switch` on
`code & 0xF` becomes a cascade of equality tests on `code &&& 0xF`, the
`default` arm being the final `else`. -/
def adsxRangeMultiplier (code : Nat) : ℚ × Bool :=
  let c := code &&& 0xF
  if c = ADSX_RANGE_BIPOLAR_3X then (3, true)
  else if c = ADSX_RANGE_BIPOLAR_2P5X then (5/2, true)
  else if c = ADSX_RANGE_BIPOLAR_1P5X then (3/2, true)
  else if c = ADSX_RANGE_BIPOLAR_1P25X then (5/4, true)
  else if c = ADSX_RANGE_BIPOLAR_0P625X then (5/8, true)
  else if c = ADSX_RANGE_UNIPOLAR_3X then (3, false)
  else if c = ADSX_RANGE_UNIPOLAR_2P5X then (5/2, false)
  else if c = ADSX_RANGE_UNIPOLAR_1P5X then (3/2, false)
  else if c = ADSX_RANGE_UNIPOLAR_1P25X then (5/4, false)
  else (5/4, false)

/-- Transfer function `adsxCodeToVolts`: clamp the code to the mask, then
`LSB = FSR / 2^N` and `Volts = NFS + code * LSB`.  The globals it reads
(`g_range_code`, `g_vref_volts`) are the explicit parameters `rc`, `vref`;
`(float)(1UL << ADSX_BITS)` is exactly `2 ^ bits`. -/
def adsxCodeToVolts (bits rc : Nat) (vref : ℚ) (codeN : Nat) : ℚ :=
  let codeN := if codeN > ADSX_CODE_MASK bits then ADSX_CODE_MASK bits else codeN
  let mult := (adsxRangeMultiplier rc).1
  let bipolar := (adsxRangeMultiplier rc).2
  let PFS := mult * vref
  let NFS := if bipolar then -PFS else 0
  let FSR := PFS - NFS
  let LSB := FSR / (2 ^ bits : ℚ)
  NFS + (codeN : ℚ) * LSB

/-- Aligned N-bit sample extraction `adsxReadCodeNbits`, applied to the raw
32-bit word `w` delivered by `adsxReadCodeRaw32`:
`(w >> ADSX_CODE_SHIFT) & ADSX_CODE_MASK`. -/
def adsxReadCodeNbits (bits w : Nat) : Nat :=
  ((w % 2 ^ 32) >>> ADSX_CODE_SHIFT bits) &&& ADSX_CODE_MASK bits

/-- Conversion context and calibration globals of the sketch, gathered into
one explicit record. -/
structure AdsxState where
  range_code : Nat
  useInternalRef : Bool
  vref : ℚ
  num_averages : Nat
  cal_enabled : Bool
  cal_slope : ℚ
  cal_offset : ℚ
deriving DecidableEq

/-- Static initialisers of the globals:
`g_range_code = ADSX_RANGE_BIPOLAR_3X`, `g_useInternalRef = true`,
`g_vref_volts = 4.096f`, `g_num_averages = 12`, `g_cal_enabled = false`,
`g_cal_slope = 1.0f`, `g_cal_offset = 0.0f`. -/
def initialState : AdsxState :=
  { range_code := ADSX_RANGE_BIPOLAR_3X
    useInternalRef := true
    vref := 4096 / 1000
    num_averages := 12
    cal_enabled := false
    cal_slope := 1
    cal_offset := 0 }

/-- Reference-voltage setter `adsxSetVrefVolts`: writes `g_vref_volts` only
when the argument is strictly positive. -/
def adsxSetVrefVolts (vref_volts : ℚ) (st : AdsxState) : AdsxState :=
  if vref_volts > 0 then { st with vref := vref_volts } else st

/-- Range setter `adsxSetRange`: its effect on the conversion context is
`g_range_code = range_code & 0x000F` and `g_useInternalRef = useInternalRef`
(the SPI register write and the discarded flush conversion have no effect on
the modelled state). -/
def adsxSetRange (range_code : Nat) (useInternalRef : Bool) (st : AdsxState) :
    AdsxState :=
  { st with range_code := range_code &&& 0xF, useInternalRef := useInternalRef }

/-- Calibration part of `setup` (the `#if ADSX_ENABLE_TWO_POINT_CAL` block):
given the compile-time flag and the four user calibration constants, it
updates `g_cal_slope`, `g_cal_offset`, `g_cal_enabled`, and reports whether
the range-mismatch warning is printed.  When the measured points coincide, or
the feature is compiled out, the model is disabled and slope/offset keep
their previous values. -/
def setupCal (calCompiled : Bool) (p1a p1m p2a p2m : ℚ) (st : AdsxState) :
    AdsxState × Bool :=
  if calCompiled then
    if p2m ≠ p1m then
      let slope := (p2a - p1a) / (p2m - p1m)
      let offset := p1a - slope * p1m
      let st := { st with cal_enabled := true, cal_slope := slope,
                          cal_offset := offset }
      (st, st.range_code ≠ ADSX_CAL_RANGE_CODE)
    else
      ({ st with cal_enabled := false }, false)
  else
    ({ st with cal_enabled := false }, false)

/-- State effect of `setup`: `adsxSetVrefVolts(4.096f)`, then
`adsxSetRange(g_range_code, true)`, then the calibration block.  The four
calibration constants are parameters (they are user-edited configuration);
the second component is true exactly when the range-mismatch warning is
printed. -/
def setup (calCompiled : Bool) (p1a p1m p2a p2m : ℚ) (st : AdsxState) :
    AdsxState × Bool :=
  let st := adsxSetVrefVolts (4096 / 1000) st
  let st := adsxSetRange st.range_code true st
  setupCal calCompiled p1a p1m p2a p2m st

/-- Effective averaging count: `uint16_t n = (g_num_averages < 1) ? 1 :
g_num_averages;`. -/
def navg (m : Nat) : Nat := if m < 1 then 1 else m

/-- Codes consumed by the averaging loop of `adsxReadAveragedVolts`: the i-th
iteration's `adsxReadCodeNbits()` result, where `raw i` is the 32-bit word the
device answers on the i-th read. -/
def loopCodes (bits n0 : Nat) (raw : Nat → Nat) : List Nat :=
  (List.range (navg n0)).map (fun i => adsxReadCodeNbits bits (raw i))

/-- C cast of the nonnegative float average to `uint32_t`
(`(uint32_t)avg_code`): truncation toward zero, reduced modulo `2 ^ 32`. -/
def castU32 (q : ℚ) : Nat := (⌊q⌋).toNat % 2 ^ 32

/-- Uncalibrated part of `adsxReadAveragedVolts`: accumulate the loop codes in
the `uint32_t` accumulator, average with `(float)code_accumulator / (float)n`,
cast the average back to `uint32_t`, and convert with `adsxCodeToVolts`. -/
def adsxAvgVoltsRaw (bits : Nat) (st : AdsxState) (raw : Nat → Nat) : ℚ :=
  let n := navg st.num_averages
  let code_accumulator : Nat :=
    (loopCodes bits st.num_averages raw).foldl (fun a c => (a + c) % 2 ^ 32) 0
  let avg_code : ℚ := (code_accumulator : ℚ) / (n : ℚ)
  adsxCodeToVolts bits st.range_code st.vref (castU32 avg_code)

/-- Full `adsxReadAveragedVolts`: the uncalibrated average, then (only in a
build with `ADSX_ENABLE_TWO_POINT_CAL`) the correction
`g_cal_offset + g_cal_slope * volts_raw`, applied exactly when
`g_cal_enabled && (g_range_code == ADSX_CAL_RANGE_CODE)`. -/
def adsxReadAveragedVolts (bits : Nat) (calCompiled : Bool) (st : AdsxState)
    (raw : Nat → Nat) : ℚ :=
  let volts_raw := adsxAvgVoltsRaw bits st raw
  if calCompiled = true ∧ st.cal_enabled = true ∧
      st.range_code = ADSX_CAL_RANGE_CODE then
    st.cal_offset + st.cal_slope * volts_raw
  else
    volts_raw

/-- Operations of the sketch that touch the modelled globals (the read path
`adsxReadAveragedVolts`, `adsxReadCodeRaw32`, `adsxReadCodeNbits`,
`adsxCodeToVolts` only reads the state). -/
inductive AdsxOp where
  | setVref (v : ℚ)
  | setRange (code : Nat) (useInternalRef : Bool)
  | runSetup (calCompiled : Bool) (p1a p1m p2a p2m : ℚ)

/-- State transition of one operation. -/
def applyOp (st : AdsxState) : AdsxOp → AdsxState
  | AdsxOp.setVref v => adsxSetVrefVolts v st
  | AdsxOp.setRange c b => adsxSetRange c b st
  | AdsxOp.runSetup cc p1a p1m p2a p2m => (setup cc p1a p1m p2a p2m st).1

/-- Result of running a sequence of operations from the power-on state. -/
def runOps (ops : List AdsxOp) : AdsxState :=
  ops.foldl applyOp initialState

/-- Spec-side reading of claim C4: the transfer-function formula applied to
the EXACT (untruncated) rational average code `q`, clamp included.  This is
what "`adsxCodeToVolts` applied to the exact floating-point average" would
compute; it exists only to be compared against the pipeline in the code,
which truncates the average to an integer first. -/
def adsxCodeToVoltsExactSpec (bits rc : Nat) (vref : ℚ) (q : ℚ) : ℚ :=
  let q := if q > (ADSX_CODE_MASK bits : ℚ) then (ADSX_CODE_MASK bits : ℚ) else q
  let mult := (adsxRangeMultiplier rc).1
  let bipolar := (adsxRangeMultiplier rc).2
  let PFS := mult * vref
  let NFS := if bipolar then -PFS else 0
  let FSR := PFS - NFS
  let LSB := FSR / (2 ^ bits : ℚ)
  NFS + q * LSB

/-- Positive full-scale of a range: `PFS = multiplier × reference_voltage`. -/
def rangePFS (rc : Nat) (vref : ℚ) : ℚ := (adsxRangeMultiplier rc).1 * vref

/-- Negative full-scale: `NFS = -PFS` for a bipolar range, `0` for a unipolar
one. -/
def rangeNFS (rc : Nat) (vref : ℚ) : ℚ :=
  if (adsxRangeMultiplier rc).2 then -(rangePFS rc vref) else 0

/-- Full-scale span `FSR = PFS − NFS`. -/
def rangeFSR (rc : Nat) (vref : ℚ) : ℚ := rangePFS rc vref - rangeNFS rc vref

/-- LSB size `FSR / 2 ^ resolution_bits`. -/
def rangeLSB (bits rc : Nat) (vref : ℚ) : ℚ := rangeFSR rc vref / (2 ^ bits : ℚ)

/-- Raw-word stream on which the device always answers zero. -/
def zeroRaw : Nat → Nat := fun _ => 0

/-- Conversion context for the averaging scenario: the power-on state with the
averaging count set to two. -/
def avgCexState : AdsxState := { initialState with num_averages := 2 }

/-- Raw-word stream whose i-th aligned 16-bit code is `i` itself (the device
word carries the code left-aligned by `ADSX_CODE_SHIFT = 16`). -/
def avgCexRaw : Nat → Nat := fun i => i <<< 16

/-- Startup state of the range-mismatch scenario: the user edits the default
`g_range_code` to `ADSX_RANGE_BIPOLAR_2P5X` while `ADSX_CAL_RANGE_CODE` stays
`ADSX_RANGE_BIPOLAR_3X`, and `setup` runs in the two-point-calibration build
with the sketch's calibration constants. -/
def mismatchState : AdsxState :=
  (setup true ADSX_CAL_P1_ACTUAL ADSX_CAL_P1_MEASURED ADSX_CAL_P2_ACTUAL
      ADSX_CAL_P2_MEASURED
      { initialState with range_code := ADSX_RANGE_BIPOLAR_2P5X }).1

end RangeRite

namespace RangeRite

lemma mask_eq_of_bits (bits : Nat) (h : bits = 16 ∨ bits = 18) :
    ADSX_CODE_MASK bits = 2 ^ bits - 1 := by
  rcases h with h | h <;> subst h <;> decide

lemma adsxCodeToVolts_of_le (bits rc code : Nat) (vref : ℚ)
    (h : code ≤ ADSX_CODE_MASK bits) :
    adsxCodeToVolts bits rc vref code =
      rangeNFS rc vref + (code : ℚ) * rangeLSB bits rc vref := by
  have hc : ¬ (code > ADSX_CODE_MASK bits) := by omega
  simp only [adsxCodeToVolts, rangeNFS, rangePFS, rangeLSB, rangeFSR, if_neg hc]

lemma adsxCodeToVolts_clamped (bits rc code : Nat) (vref : ℚ)
    (h : ADSX_CODE_MASK bits < code) :
    adsxCodeToVolts bits rc vref code =
      adsxCodeToVolts bits rc vref (ADSX_CODE_MASK bits) := by
  simp only [adsxCodeToVolts, if_pos h, if_neg (lt_irrefl (ADSX_CODE_MASK bits))]

/-- C1: for every code in [0, 2^N − 1] (N ∈ {16, 18}), `adsxCodeToVolts`
returns `NFS + code × LSB`, where `PFS = multiplier × reference_voltage` for
the active range, `NFS = -PFS` if bipolar and `0` if unipolar,
`FSR = PFS − NFS`, and `LSB = FSR / 2^N`. -/
theorem C1_transfer_function (bits rc code : Nat) (vref : ℚ)
    (hbits : bits = 16 ∨ bits = 18) (hcode : code ≤ 2 ^ bits - 1) :
    adsxCodeToVolts bits rc vref code =
      rangeNFS rc vref + (code : ℚ) * rangeLSB bits rc vref :=
  adsxCodeToVolts_of_le bits rc code vref
    (by rw [mask_eq_of_bits bits hbits]; exact hcode)

/-- Witness for C1 at N = 16, the unipolar 1.25× range, VREF = 4.096 V and
code 32768. -/
theorem C1_transfer_function_witness :
    ((16 : Nat) = 16 ∨ (16 : Nat) = 18) ∧ 32768 ≤ 2 ^ 16 - 1 ∧
      adsxCodeToVolts 16 ADSX_RANGE_UNIPOLAR_1P25X (4096 / 1000) 32768 =
        rangeNFS ADSX_RANGE_UNIPOLAR_1P25X (4096 / 1000) +
          (32768 : ℚ) * rangeLSB 16 ADSX_RANGE_UNIPOLAR_1P25X (4096 / 1000) :=
  ⟨Or.inl rfl, by decide,
    C1_transfer_function 16 ADSX_RANGE_UNIPOLAR_1P25X 32768 (4096 / 1000)
      (Or.inl rfl) (by decide)⟩

/-- C7: any code above the maximum representable code 2^N − 1 is silently
clamped to 2^N − 1 before conversion; in particular
`adsxCodeToVolts (2^N) = adsxCodeToVolts (2^N − 1)`. -/
theorem C7_clamp_above_max (bits rc code : Nat) (vref : ℚ)
    (hbits : bits = 16 ∨ bits = 18) (hcode : 2 ^ bits - 1 < code) :
    adsxCodeToVolts bits rc vref code =
        adsxCodeToVolts bits rc vref (2 ^ bits - 1) ∧
      adsxCodeToVolts bits rc vref (2 ^ bits) =
        adsxCodeToVolts bits rc vref (2 ^ bits - 1) := by
  have hm := mask_eq_of_bits bits hbits
  have hpow : 0 < 2 ^ bits := pow_pos (by norm_num) bits
  constructor
  · rw [adsxCodeToVolts_clamped bits rc code vref (by omega), hm]
  · rw [adsxCodeToVolts_clamped bits rc (2 ^ bits) vref (by omega), hm]

/-- Witness for C7 at N = 16, the bipolar 3× range, VREF = 4.096 V and
code 100000. -/
theorem C7_clamp_above_max_witness :
    ((16 : Nat) = 16 ∨ (16 : Nat) = 18) ∧ 2 ^ 16 - 1 < 100000 ∧
      (adsxCodeToVolts 16 ADSX_RANGE_BIPOLAR_3X (4096 / 1000) 100000 =
          adsxCodeToVolts 16 ADSX_RANGE_BIPOLAR_3X (4096 / 1000) (2 ^ 16 - 1) ∧
        adsxCodeToVolts 16 ADSX_RANGE_BIPOLAR_3X (4096 / 1000) (2 ^ 16) =
          adsxCodeToVolts 16 ADSX_RANGE_BIPOLAR_3X (4096 / 1000) (2 ^ 16 - 1)) :=
  ⟨Or.inl rfl, by decide,
    C7_clamp_above_max 16 ADSX_RANGE_BIPOLAR_3X 100000 (4096 / 1000)
      (Or.inl rfl) (by decide)⟩

lemma adsxRangeMultiplier_fst_pos (rc : Nat) : 0 < (adsxRangeMultiplier rc).1 := by
  simp only [adsxRangeMultiplier]
  split_ifs <;> norm_num

lemma rangeFSR_pos (rc : Nat) (vref : ℚ) (h : 0 < vref) : 0 < rangeFSR rc vref := by
  have hm := adsxRangeMultiplier_fst_pos rc
  unfold rangeFSR rangeNFS rangePFS
  split_ifs with hb
  · nlinarith
  · nlinarith

lemma rangeLSB_pos (bits rc : Nat) (vref : ℚ) (h : 0 < vref) :
    0 < rangeLSB bits rc vref :=
  div_pos (rangeFSR_pos rc vref h) (by positivity)

/-- C8: for a bipolar range, `adsxCodeToVolts 0 = -multiplier × vref` (here
exactly), and the transfer function is strictly increasing in the code over
[0, 2^N − 1] when the reference voltage is positive. -/
theorem C8_bipolar_zero_and_monotone (bits rc : Nat) (vref : ℚ)
    (hbits : bits = 16 ∨ bits = 18)
    (hbip : (adsxRangeMultiplier rc).2 = true) (hvref : 0 < vref) :
    adsxCodeToVolts bits rc vref 0 = -((adsxRangeMultiplier rc).1 * vref) ∧
      ∀ c1 c2 : Nat, c1 < c2 → c2 ≤ 2 ^ bits - 1 →
        adsxCodeToVolts bits rc vref c1 < adsxCodeToVolts bits rc vref c2 := by
  have hm := mask_eq_of_bits bits hbits
  constructor
  · rw [adsxCodeToVolts_of_le bits rc 0 vref (Nat.zero_le _)]
    simp [rangeNFS, rangePFS, hbip]
  · intro c1 c2 h12 h2
    rw [adsxCodeToVolts_of_le bits rc c1 vref (by omega),
        adsxCodeToVolts_of_le bits rc c2 vref (by omega)]
    have hL := rangeLSB_pos bits rc vref hvref
    have hc : (c1 : ℚ) < (c2 : ℚ) := by exact_mod_cast h12
    nlinarith

/-- Witness for C8 at the bipolar 3× range, N = 16, VREF = 4.096 V, with the
monotonicity conjunct instantiated at codes 5 < 7. -/
theorem C8_bipolar_zero_and_monotone_witness :
    ((16 : Nat) = 16 ∨ (16 : Nat) = 18) ∧
      (adsxRangeMultiplier ADSX_RANGE_BIPOLAR_3X).2 = true ∧
      (0 : ℚ) < 4096 / 1000 ∧
      adsxCodeToVolts 16 ADSX_RANGE_BIPOLAR_3X (4096 / 1000) 0 =
        -((adsxRangeMultiplier ADSX_RANGE_BIPOLAR_3X).1 * (4096 / 1000)) ∧
      adsxCodeToVolts 16 ADSX_RANGE_BIPOLAR_3X (4096 / 1000) 5 <
        adsxCodeToVolts 16 ADSX_RANGE_BIPOLAR_3X (4096 / 1000) 7 := by
  have h := C8_bipolar_zero_and_monotone 16 ADSX_RANGE_BIPOLAR_3X (4096 / 1000)
    (Or.inl rfl) (by decide) (by norm_num)
  exact ⟨Or.inl rfl, by decide, by norm_num, h.1,
    h.2 5 7 (by decide) (by decide)⟩

/-- C9: every code produced by `adsxReadCodeNbits` is already in
[0, 2^N − 1] (the shifted word is masked with the N-bit mask), so the
out-of-range clamp branch of `adsxCodeToVolts` is the identity on such
codes. -/
theorem C9_acquired_code_in_range (bits w : Nat)
    (hbits : bits = 16 ∨ bits = 18) :
    adsxReadCodeNbits bits w ≤ 2 ^ bits - 1 ∧
      (if adsxReadCodeNbits bits w > ADSX_CODE_MASK bits then ADSX_CODE_MASK bits
        else adsxReadCodeNbits bits w) = adsxReadCodeNbits bits w := by
  have h1 : adsxReadCodeNbits bits w ≤ ADSX_CODE_MASK bits := Nat.and_le_right
  refine ⟨?_, ?_⟩
  · rw [← mask_eq_of_bits bits hbits]; exact h1
  · rw [if_neg (by omega)]

/-- Witness for C9 at N = 16 and the raw word 0xDEADBEEF. -/
theorem C9_acquired_code_in_range_witness :
    ((16 : Nat) = 16 ∨ (16 : Nat) = 18) ∧
      (adsxReadCodeNbits 16 0xDEADBEEF ≤ 2 ^ 16 - 1 ∧
        (if adsxReadCodeNbits 16 0xDEADBEEF > ADSX_CODE_MASK 16 then
            ADSX_CODE_MASK 16
          else adsxReadCodeNbits 16 0xDEADBEEF) =
          adsxReadCodeNbits 16 0xDEADBEEF) :=
  ⟨Or.inl rfl, C9_acquired_code_in_range 16 0xDEADBEEF (Or.inl rfl)⟩

end RangeRite

namespace RangeRite

lemma setupCal_vref (cc : Bool) (a b c d : ℚ) (st : AdsxState) :
    (setupCal cc a b c d st).1.vref = st.vref := by
  simp only [setupCal]
  split_ifs <;> rfl

lemma setup_vref (cc : Bool) (a b c d : ℚ) (st : AdsxState) :
    (setup cc a b c d st).1.vref = 4096 / 1000 := by
  have h : (4096 / 1000 : ℚ) > 0 := by norm_num
  simp [setup, setupCal_vref, adsxSetRange, adsxSetVrefVolts, if_pos h]

lemma applyOp_vref_pos (st : AdsxState) (op : AdsxOp) (h : 0 < st.vref) :
    0 < (applyOp st op).vref := by
  cases op with
  | setVref v =>
      simp only [applyOp, adsxSetVrefVolts]
      split_ifs with hv
      · simpa using hv
      · exact h
  | setRange c b => simpa [applyOp, adsxSetRange] using h
  | runSetup cc p1a p1m p2a p2m =>
      have : (applyOp st (AdsxOp.runSetup cc p1a p1m p2a p2m)).vref =
          4096 / 1000 := setup_vref cc p1a p1m p2a p2m st
      rw [this]
      norm_num

lemma runOps_vref_pos (ops : List AdsxOp) : 0 < (runOps ops).vref := by
  suffices h : ∀ (l : List AdsxOp) (st : AdsxState),
      0 < st.vref → 0 < (l.foldl applyOp st).vref by
    exact h ops initialState (by norm_num [initialState])
  intro l
  induction l with
  | nil => intro st h; simpa using h
  | cons op tl ih => intro st h; exact ih _ (applyOp_vref_pos st op h)

/-- C10: `adsxSetVrefVolts` writes the reference voltage only for a strictly
positive argument and leaves the whole state unchanged otherwise; the range
setter never touches it; `setup` only writes it through
`adsxSetVrefVolts(4.096f)`; hence along every operation sequence from the
power-on state the reference voltage read by the transfer function stays
strictly positive. -/
theorem C10_vref_always_positive :
    (∀ (v : ℚ) (st : AdsxState), 0 < v → (adsxSetVrefVolts v st).vref = v) ∧
      (∀ (v : ℚ) (st : AdsxState), ¬ 0 < v → adsxSetVrefVolts v st = st) ∧
      (∀ (c : Nat) (b : Bool) (st : AdsxState),
        (adsxSetRange c b st).vref = st.vref) ∧
      (∀ (cc : Bool) (a b c d : ℚ) (st : AdsxState),
        (setup cc a b c d st).1.vref = 4096 / 1000) ∧
      (∀ ops : List AdsxOp, 0 < (runOps ops).vref) := by
  refine ⟨?_, ?_, ?_, setup_vref, runOps_vref_pos⟩
  · intro v st hv
    simp [adsxSetVrefVolts, if_pos hv]
  · intro v st hv
    simp [adsxSetVrefVolts, if_neg hv]
  · intro c b st
    rfl

/-- Witness for C10: a positive write takes effect, a non-positive write is
ignored, and a concrete operation sequence keeps the reference positive. -/
theorem C10_vref_always_positive_witness :
    (adsxSetVrefVolts 5 initialState).vref = 5 ∧
      adsxSetVrefVolts 0 initialState = initialState ∧
      0 < (runOps [AdsxOp.setVref 0, AdsxOp.setRange 3 true,
        AdsxOp.runSetup true 1 2 3 4]).vref :=
  ⟨C10_vref_always_positive.1 5 initialState (by norm_num),
    C10_vref_always_positive.2.1 0 initialState (by norm_num),
    C10_vref_always_positive.2.2.2.2
      [AdsxOp.setVref 0, AdsxOp.setRange 3 true, AdsxOp.runSetup true 1 2 3 4]⟩

lemma read_applies_cal (bits : Nat) (st : AdsxState) (raw : Nat → Nat)
    (hen : st.cal_enabled = true) (hrc : st.range_code = ADSX_CAL_RANGE_CODE) :
    adsxReadAveragedVolts bits true st raw =
      st.cal_offset + st.cal_slope * adsxAvgVoltsRaw bits st raw := by
  simp only [adsxReadAveragedVolts]
  split
  case isTrue => rfl
  case isFalse hc => simp [hen, hrc] at hc

lemma read_skips_cal (bits : Nat) (calCompiled : Bool) (st : AdsxState)
    (raw : Nat → Nat)
    (h : ¬(calCompiled = true ∧ st.cal_enabled = true ∧
        st.range_code = ADSX_CAL_RANGE_CODE)) :
    adsxReadAveragedVolts bits calCompiled st raw =
      adsxAvgVoltsRaw bits st raw := by
  simp only [adsxReadAveragedVolts]
  split
  case isTrue hc => exact absurd hc h
  case isFalse => rfl

lemma setup_cal_fields (p1a p1m p2a p2m : ℚ) (st0 : AdsxState)
    (h : p2m ≠ p1m) :
    (setup true p1a p1m p2a p2m st0).1.cal_enabled = true ∧
      (setup true p1a p1m p2a p2m st0).1.cal_slope =
        (p2a - p1a) / (p2m - p1m) ∧
      (setup true p1a p1m p2a p2m st0).1.cal_offset =
        p1a - (p2a - p1a) / (p2m - p1m) * p1m := by
  simp [setup, setupCal, adsxSetRange, adsxSetVrefVolts, h]

/-- C2: with distinct measured calibration points, the startup fit enables the
model with `slope = (p2_actual − p1_actual) / (p2_measured − p1_measured)` and
`offset = p1_actual − slope × p1_measured`, and the averaged read applies the
model as `offset + slope × raw_voltage`. -/
theorem C2_two_point_fit (bits : Nat) (p1a p1m p2a p2m : ℚ)
    (st0 : AdsxState) (raw : Nat → Nat) (h : p1m ≠ p2m) :
    (setup true p1a p1m p2a p2m st0).1.cal_enabled = true ∧
      (setup true p1a p1m p2a p2m st0).1.cal_slope =
        (p2a - p1a) / (p2m - p1m) ∧
      (setup true p1a p1m p2a p2m st0).1.cal_offset =
        p1a - (p2a - p1a) / (p2m - p1m) * p1m ∧
      ((setup true p1a p1m p2a p2m st0).1.range_code = ADSX_CAL_RANGE_CODE →
        adsxReadAveragedVolts bits true (setup true p1a p1m p2a p2m st0).1 raw =
          (setup true p1a p1m p2a p2m st0).1.cal_offset +
            (setup true p1a p1m p2a p2m st0).1.cal_slope *
              adsxAvgVoltsRaw bits (setup true p1a p1m p2a p2m st0).1 raw) := by
  obtain ⟨hen, hs, ho⟩ := setup_cal_fields p1a p1m p2a p2m st0 (Ne.symm h)
  exact ⟨hen, hs, ho, fun hrc =>
    read_applies_cal bits (setup true p1a p1m p2a p2m st0).1 raw hen hrc⟩

/-- Witness for C2 at the sketch's calibration constants, the power-on state,
N = 16 and the all-zero raw stream. -/
theorem C2_two_point_fit_witness :
    ADSX_CAL_P1_MEASURED ≠ ADSX_CAL_P2_MEASURED ∧
      ((setup true ADSX_CAL_P1_ACTUAL ADSX_CAL_P1_MEASURED ADSX_CAL_P2_ACTUAL
            ADSX_CAL_P2_MEASURED initialState).1.cal_enabled = true ∧
        (setup true ADSX_CAL_P1_ACTUAL ADSX_CAL_P1_MEASURED ADSX_CAL_P2_ACTUAL
            ADSX_CAL_P2_MEASURED initialState).1.cal_slope =
          (ADSX_CAL_P2_ACTUAL - ADSX_CAL_P1_ACTUAL) /
            (ADSX_CAL_P2_MEASURED - ADSX_CAL_P1_MEASURED) ∧
        (setup true ADSX_CAL_P1_ACTUAL ADSX_CAL_P1_MEASURED ADSX_CAL_P2_ACTUAL
            ADSX_CAL_P2_MEASURED initialState).1.cal_offset =
          ADSX_CAL_P1_ACTUAL -
            (ADSX_CAL_P2_ACTUAL - ADSX_CAL_P1_ACTUAL) /
                (ADSX_CAL_P2_MEASURED - ADSX_CAL_P1_MEASURED) *
              ADSX_CAL_P1_MEASURED ∧
        ((setup true ADSX_CAL_P1_ACTUAL ADSX_CAL_P1_MEASURED ADSX_CAL_P2_ACTUAL
              ADSX_CAL_P2_MEASURED initialState).1.range_code =
            ADSX_CAL_RANGE_CODE →
          adsxReadAveragedVolts 16 true
              (setup true ADSX_CAL_P1_ACTUAL ADSX_CAL_P1_MEASURED
                ADSX_CAL_P2_ACTUAL ADSX_CAL_P2_MEASURED initialState).1 zeroRaw =
            (setup true ADSX_CAL_P1_ACTUAL ADSX_CAL_P1_MEASURED
                  ADSX_CAL_P2_ACTUAL ADSX_CAL_P2_MEASURED initialState).1.cal_offset +
              (setup true ADSX_CAL_P1_ACTUAL ADSX_CAL_P1_MEASURED
                    ADSX_CAL_P2_ACTUAL ADSX_CAL_P2_MEASURED
                    initialState).1.cal_slope *
                adsxAvgVoltsRaw 16
                  (setup true ADSX_CAL_P1_ACTUAL ADSX_CAL_P1_MEASURED
                    ADSX_CAL_P2_ACTUAL ADSX_CAL_P2_MEASURED initialState).1
                  zeroRaw)) :=
  ⟨by norm_num [ADSX_CAL_P1_MEASURED, ADSX_CAL_P2_MEASURED],
    C2_two_point_fit 16 ADSX_CAL_P1_ACTUAL ADSX_CAL_P1_MEASURED
      ADSX_CAL_P2_ACTUAL ADSX_CAL_P2_MEASURED initialState zeroRaw
      (by norm_num [ADSX_CAL_P1_MEASURED, ADSX_CAL_P2_MEASURED])⟩

/-- C5: the fitted model maps each measured calibration point back to its
actual value — here exactly, hence in particular within any floating-point
tolerance. -/
theorem C5_fit_round_trip (p1a p1m p2a p2m : ℚ) (st0 : AdsxState)
    (h : p1m ≠ p2m) :
    (setup true p1a p1m p2a p2m st0).1.cal_offset +
        (setup true p1a p1m p2a p2m st0).1.cal_slope * p1m = p1a ∧
      (setup true p1a p1m p2a p2m st0).1.cal_offset +
        (setup true p1a p1m p2a p2m st0).1.cal_slope * p2m = p2a := by
  obtain ⟨-, hs, ho⟩ := setup_cal_fields p1a p1m p2a p2m st0 (Ne.symm h)
  rw [hs, ho]
  have hne : p2m - p1m ≠ 0 := sub_ne_zero.mpr (Ne.symm h)
  constructor
  · ring
  · field_simp
    ring

/-- Witness for C5 at the sketch's calibration constants. -/
theorem C5_fit_round_trip_witness :
    ADSX_CAL_P1_MEASURED ≠ ADSX_CAL_P2_MEASURED ∧
      ((setup true ADSX_CAL_P1_ACTUAL ADSX_CAL_P1_MEASURED ADSX_CAL_P2_ACTUAL
              ADSX_CAL_P2_MEASURED initialState).1.cal_offset +
          (setup true ADSX_CAL_P1_ACTUAL ADSX_CAL_P1_MEASURED ADSX_CAL_P2_ACTUAL
              ADSX_CAL_P2_MEASURED initialState).1.cal_slope *
            ADSX_CAL_P1_MEASURED = ADSX_CAL_P1_ACTUAL ∧
        (setup true ADSX_CAL_P1_ACTUAL ADSX_CAL_P1_MEASURED ADSX_CAL_P2_ACTUAL
              ADSX_CAL_P2_MEASURED initialState).1.cal_offset +
          (setup true ADSX_CAL_P1_ACTUAL ADSX_CAL_P1_MEASURED ADSX_CAL_P2_ACTUAL
              ADSX_CAL_P2_MEASURED initialState).1.cal_slope *
            ADSX_CAL_P2_MEASURED = ADSX_CAL_P2_ACTUAL) :=
  ⟨by norm_num [ADSX_CAL_P1_MEASURED, ADSX_CAL_P2_MEASURED],
    C5_fit_round_trip ADSX_CAL_P1_ACTUAL ADSX_CAL_P1_MEASURED
      ADSX_CAL_P2_ACTUAL ADSX_CAL_P2_MEASURED initialState
      (by norm_num [ADSX_CAL_P1_MEASURED, ADSX_CAL_P2_MEASURED])⟩

/-- C6: equal measured calibration points disable the model at startup, and a
disabled model makes the averaged read return the uncalibrated
transfer-function output unchanged. -/
theorem C6_degenerate_fit_disables (bits : Nat) (p1a p1m p2a p2m : ℚ)
    (st0 st : AdsxState) (raw : Nat → Nat) (h : p1m = p2m) :
    (setup true p1a p1m p2a p2m st0).1.cal_enabled = false ∧
      (st.cal_enabled = false →
        adsxReadAveragedVolts bits true st raw = adsxAvgVoltsRaw bits st raw) := by
  constructor
  · simp [setup, setupCal, h]
  · intro hen
    exact read_skips_cal bits true st raw (by simp [hen])

/-- Witness for C6 with both measured points equal to 1 V, at the power-on
state (whose model is disabled) and the all-zero raw stream. -/
theorem C6_degenerate_fit_disables_witness :
    (1 : ℚ) = 1 ∧
      ((setup true 0 1 2 1 initialState).1.cal_enabled = false ∧
        (initialState.cal_enabled = false →
          adsxReadAveragedVolts 16 true initialState zeroRaw =
            adsxAvgVoltsRaw 16 initialState zeroRaw)) :=
  ⟨rfl, C6_degenerate_fit_disables 16 0 1 2 1 initialState initialState
    zeroRaw rfl⟩


lemma and_fifteen (n : Nat) : n &&& 15 = n % 16 :=
  Nat.and_pow_two_sub_one_eq_mod n 4

lemma adsxRangeMultiplier_one : adsxRangeMultiplier 1 = (5/2, true) := by
  norm_num [adsxRangeMultiplier, and_fifteen, ADSX_RANGE_BIPOLAR_3X,
    ADSX_RANGE_BIPOLAR_2P5X]

lemma adsxRangeMultiplier_zero : adsxRangeMultiplier 0 = (3, true) := by
  norm_num [adsxRangeMultiplier, and_fifteen, ADSX_RANGE_BIPOLAR_3X]

lemma setup_range_code (cc : Bool) (a b c d : ℚ) (st : AdsxState) :
    (setup cc a b c d st).1.range_code = st.range_code &&& 0xF := by
  simp only [setup, setupCal, adsxSetRange, adsxSetVrefVolts]
  split_ifs <;> rfl

lemma setup_snd_warning (p1a p1m p2a p2m : ℚ) (st0 : AdsxState)
    (hen : (setup true p1a p1m p2a p2m st0).1.cal_enabled = true)
    (hmis : (setup true p1a p1m p2a p2m st0).1.range_code ≠ ADSX_CAL_RANGE_CODE) :
    (setup true p1a p1m p2a p2m st0).2 = true := by
  by_cases h : p2m = p1m
  · have : (setup true p1a p1m p2a p2m st0).1.cal_enabled = false := by
      simp [setup, setupCal, h]
    rw [this] at hen
    cases hen
  · rw [setup_range_code] at hmis
    simp [setup, setupCal, adsxSetRange, adsxSetVrefVolts, h] at hmis ⊢
    exact hmis

lemma adsxReadCodeNbits_zero (bits : Nat) : adsxReadCodeNbits bits 0 = 0 := by
  simp [adsxReadCodeNbits]

lemma foldl_addmod_zeros (l : List Nat) :
    (l.map (fun _ => (0 : Nat))).foldl (fun a c => (a + c) % 2 ^ 32) 0 = 0 := by
  induction l with
  | nil => rfl
  | cons x tl ih => simpa using ih

lemma avgVoltsRaw_zeroRaw (bits : Nat) (st : AdsxState) :
    adsxAvgVoltsRaw bits st zeroRaw =
      adsxCodeToVolts bits st.range_code st.vref 0 := by
  have hmap : loopCodes bits st.num_averages zeroRaw =
      (List.range (navg st.num_averages)).map (fun _ => (0 : Nat)) := by
    simp [loopCodes, zeroRaw, adsxReadCodeNbits_zero]
  simp only [adsxAvgVoltsRaw, hmap, foldl_addmod_zeros]
  norm_num [castU32]

lemma setup_cal_values (p1a p1m p2a p2m : ℚ) (st0 : AdsxState)
    (h : p2m ≠ p1m) :
    (setup true p1a p1m p2a p2m st0).1.cal_slope =
        (p2a - p1a) / (p2m - p1m) ∧
      (setup true p1a p1m p2a p2m st0).1.cal_offset =
        p1a - (p2a - p1a) / (p2m - p1m) * p1m :=
  ⟨(setup_cal_fields p1a p1m p2a p2m st0 h).2.1,
    (setup_cal_fields p1a p1m p2a p2m st0 h).2.2⟩

lemma cal_measured_ne : ADSX_CAL_P2_MEASURED ≠ ADSX_CAL_P1_MEASURED := by
  norm_num [ADSX_CAL_P1_MEASURED, ADSX_CAL_P2_MEASURED]

lemma mismatchState_range_code :
    mismatchState.range_code = ADSX_RANGE_BIPOLAR_2P5X := by
  rw [mismatchState, setup_range_code]
  decide

lemma mismatchState_vref : mismatchState.vref = 4096 / 1000 :=
  setup_vref true ADSX_CAL_P1_ACTUAL ADSX_CAL_P1_MEASURED ADSX_CAL_P2_ACTUAL
    ADSX_CAL_P2_MEASURED { initialState with range_code := ADSX_RANGE_BIPOLAR_2P5X }

lemma mismatchState_cal_enabled : mismatchState.cal_enabled = true :=
  (setup_cal_fields ADSX_CAL_P1_ACTUAL ADSX_CAL_P1_MEASURED ADSX_CAL_P2_ACTUAL
    ADSX_CAL_P2_MEASURED _ cal_measured_ne).1

lemma mismatchState_raw_value :
    adsxAvgVoltsRaw 16 mismatchState zeroRaw = -(256 / 25) := by
  rw [avgVoltsRaw_zeroRaw, mismatchState_range_code, mismatchState_vref]
  rw [adsxCodeToVolts_of_le 16 ADSX_RANGE_BIPOLAR_2P5X 0 (4096 / 1000)
    (by decide)]
  norm_num [rangeNFS, rangePFS, rangeLSB, rangeFSR, ADSX_RANGE_BIPOLAR_2P5X,
    adsxRangeMultiplier_one]

/-- Counterexample to C3: in the calibration-enabled build, with the fit
enabled and the active range (bipolar 2.5×) different from the model's tagged
range (bipolar 3×), `adsxReadAveragedVolts` returns the UNCALIBRATED voltage,
not the corrected one — the guard `g_range_code == ADSX_CAL_RANGE_CODE` on
line 128 of the sketch skips the correction instead of applying it. -/
theorem C3_counterexample :
    mismatchState.cal_enabled = true ∧
      mismatchState.range_code ≠ ADSX_CAL_RANGE_CODE ∧
      adsxReadAveragedVolts 16 true mismatchState zeroRaw =
        adsxAvgVoltsRaw 16 mismatchState zeroRaw ∧
      adsxReadAveragedVolts 16 true mismatchState zeroRaw ≠
        mismatchState.cal_offset +
          mismatchState.cal_slope * adsxAvgVoltsRaw 16 mismatchState zeroRaw := by
  have hrc : mismatchState.range_code ≠ ADSX_CAL_RANGE_CODE := by
    rw [mismatchState_range_code]
    decide
  have hskip := read_skips_cal 16 true mismatchState zeroRaw (by tauto)
  refine ⟨mismatchState_cal_enabled, hrc, hskip, ?_⟩
  obtain ⟨hs, ho⟩ := setup_cal_values ADSX_CAL_P1_ACTUAL ADSX_CAL_P1_MEASURED
    ADSX_CAL_P2_ACTUAL ADSX_CAL_P2_MEASURED
    { initialState with range_code := ADSX_RANGE_BIPOLAR_2P5X } cal_measured_ne
  rw [hskip, mismatchState_raw_value]
  rw [show mismatchState.cal_slope =
      (ADSX_CAL_P2_ACTUAL - ADSX_CAL_P1_ACTUAL) /
        (ADSX_CAL_P2_MEASURED - ADSX_CAL_P1_MEASURED) from hs,
    show mismatchState.cal_offset =
      ADSX_CAL_P1_ACTUAL -
        (ADSX_CAL_P2_ACTUAL - ADSX_CAL_P1_ACTUAL) /
            (ADSX_CAL_P2_MEASURED - ADSX_CAL_P1_MEASURED) *
          ADSX_CAL_P1_MEASURED from ho]
  norm_num [ADSX_CAL_P1_ACTUAL, ADSX_CAL_P1_MEASURED, ADSX_CAL_P2_ACTUAL,
    ADSX_CAL_P2_MEASURED]

/-- C3 as amended: when the model's tagged range differs from the currently
active range, the averaged read does NOT apply the correction — it returns the
uncalibrated transfer-function output — and the mismatch is surfaced as the
startup diagnostic warning whenever the fit is enabled. -/
theorem C3_amended_mismatch_skips_correction (bits : Nat) (calCompiled : Bool)
    (st : AdsxState) (raw : Nat → Nat)
    (hmis : st.range_code ≠ ADSX_CAL_RANGE_CODE) :
    adsxReadAveragedVolts bits calCompiled st raw =
        adsxAvgVoltsRaw bits st raw ∧
      ∀ (p1a p1m p2a p2m : ℚ) (st0 : AdsxState),
        (setup true p1a p1m p2a p2m st0).1.cal_enabled = true →
        (setup true p1a p1m p2a p2m st0).1.range_code ≠ ADSX_CAL_RANGE_CODE →
        (setup true p1a p1m p2a p2m st0).2 = true := by
  refine ⟨read_skips_cal bits calCompiled st raw (by tauto), ?_⟩
  intro p1a p1m p2a p2m st0 hen hm
  exact setup_snd_warning p1a p1m p2a p2m st0 hen hm

/-- Witness for the amended C3 at the concrete mismatch state. -/
theorem C3_amended_mismatch_skips_correction_witness :
    mismatchState.range_code ≠ ADSX_CAL_RANGE_CODE ∧
      (adsxReadAveragedVolts 16 true mismatchState zeroRaw =
          adsxAvgVoltsRaw 16 mismatchState zeroRaw ∧
        ∀ (p1a p1m p2a p2m : ℚ) (st0 : AdsxState),
          (setup true p1a p1m p2a p2m st0).1.cal_enabled = true →
          (setup true p1a p1m p2a p2m st0).1.range_code ≠ ADSX_CAL_RANGE_CODE →
          (setup true p1a p1m p2a p2m st0).2 = true) :=
  ⟨by rw [mismatchState_range_code]; decide,
    C3_amended_mismatch_skips_correction 16 true mismatchState zeroRaw
      (by rw [mismatchState_range_code]; decide)⟩

lemma foldl_addmod_of_lt (l : List Nat) (a : Nat) (h : a + l.sum < 2 ^ 32) :
    l.foldl (fun x c => (x + c) % 2 ^ 32) a = a + l.sum := by
  induction l generalizing a with
  | nil => simp
  | cons c tl ih =>
      simp only [List.foldl_cons, List.sum_cons] at h ⊢
      rw [Nat.mod_eq_of_lt (by omega), ih (a + c) (by omega)]
      omega

lemma avgVoltsRaw_eq_div (bits : Nat) (st : AdsxState) (raw : Nat → Nat)
    (hsum : (loopCodes bits st.num_averages raw).sum < 2 ^ 32) :
    adsxAvgVoltsRaw bits st raw =
      adsxCodeToVolts bits st.range_code st.vref
        ((loopCodes bits st.num_averages raw).sum / navg st.num_averages) := by
  have hfold := foldl_addmod_of_lt (loopCodes bits st.num_averages raw) 0
    (by simpa using hsum)
  simp only [adsxAvgVoltsRaw, hfold, Nat.zero_add]
  congr 1
  simp only [castU32, Int.floor_toNat, Nat.floor_div_eq_div]
  exact Nat.mod_eq_of_lt (lt_of_le_of_lt (Nat.div_le_self _ _) hsum)

/-- C4 as amended: the averaging loop accumulates the codes in a `uint32_t`
and divides by `n` in floating point, but the cast `(uint32_t)avg_code` then
truncates that average to an integer code, so (absent accumulator overflow)
the uncalibrated result equals `adsxCodeToVolts` applied to the FLOOR of the
average of the codes, not to the exact average. -/
theorem C4_amended_truncated_average (bits : Nat) (st : AdsxState)
    (raw : Nat → Nat)
    (hsum : (loopCodes bits st.num_averages raw).sum < 2 ^ 32) :
    adsxAvgVoltsRaw bits st raw =
      adsxCodeToVolts bits st.range_code st.vref
        ((loopCodes bits st.num_averages raw).sum / navg st.num_averages) :=
  avgVoltsRaw_eq_div bits st raw hsum

/-- Witness for the amended C4: two samples with codes 0 and 1; their sum 1
does not overflow, and the result is the conversion of ⌊1 / 2⌋ = 0. -/
theorem C4_amended_truncated_average_witness :
    (loopCodes 16 avgCexState.num_averages avgCexRaw).sum < 2 ^ 32 ∧
      adsxAvgVoltsRaw 16 avgCexState avgCexRaw =
        adsxCodeToVolts 16 avgCexState.range_code avgCexState.vref
          ((loopCodes 16 avgCexState.num_averages avgCexRaw).sum /
            navg avgCexState.num_averages) :=
  ⟨by decide, C4_amended_truncated_average 16 avgCexState avgCexRaw (by decide)⟩

/-- Counterexample to C4: with two samples of codes 0 and 1 the exact
floating-point average code is 1/2, but the pipeline truncates it to 0 before
conversion, so the uncalibrated result differs from the transfer-function
formula applied to the exact average. -/
theorem C4_counterexample :
    ((loopCodes 16 avgCexState.num_averages avgCexRaw).sum : ℚ) /
        (navg avgCexState.num_averages : ℚ) = 1 / 2 ∧
      adsxAvgVoltsRaw 16 avgCexState avgCexRaw ≠
        adsxCodeToVoltsExactSpec 16 avgCexState.range_code avgCexState.vref
          (1 / 2) := by
  have hsum : (loopCodes 16 avgCexState.num_averages avgCexRaw).sum = 1 := by
    decide
  have hn : navg avgCexState.num_averages = 2 := by decide
  have hrc : avgCexState.range_code = 0 := by decide
  have hvref : avgCexState.vref = 4096 / 1000 := rfl
  constructor
  · rw [hsum, hn]
    norm_num
  · rw [avgVoltsRaw_eq_div 16 avgCexState avgCexRaw (by decide), hsum, hn,
      hrc, hvref]
    rw [show (1 : Nat) / 2 = 0 from rfl]
    rw [adsxCodeToVolts_of_le 16 0 0 (4096 / 1000) (by decide)]
    norm_num [adsxCodeToVoltsExactSpec, rangeNFS, rangePFS, rangeLSB,
      rangeFSR, ADSX_CODE_MASK, adsxRangeMultiplier_zero]

end RangeRite
